import Mathlib

/-!
Verification development for the data-processing module
(`src/test-workspace/src/data_processor.py`).

The Python module is embedded shallowly:

* Python values occurring as dictionary entries are modelled by the
  inductive type `Value` (integers, strings, booleans, `None`); Python
  multiplication of such a value by an integer is `Value.mulInt`, which is
  `none` exactly when CPython raises `TypeError` (booleans multiply as
  0/1, strings replicate, `None` does not support `*`).
* A Python `dict` is modelled as an association list with first-match
  lookup (`dictGet`); `k in d` is `(dictGet d k).isSome`.
* A raised exception is modelled by `Option`/`Except` results; `none`
  (resp. `.error`) means the call raised and the exception propagates.
* Methods of the `DataProcessor` class are state passing functions that
  return the updated object together with the (possibly raised) result.
-/

/-- A Python value as it occurs in the data items handled by the module:
an integer, a string, a boolean or `None`. -/
inductive Value where
  | vint : Int → Value
  | vstr : String → Value
  | vbool : Bool → Value
  | vnone : Value
deriving DecidableEq, Repr

/-- Python multiplication `v * k` of a value by an integer: `none` models a
raised `TypeError`.  Integers multiply, booleans coerce to 0/1, strings
replicate (`s * k` is empty for `k ≤ 0`), and `None` raises. -/
def Value.mulInt : Value → Int → Option Value
  | Value.vint n, k => some (Value.vint (n * k))
  | Value.vstr s, k => some (Value.vstr (String.join (List.replicate k.toNat s)))
  | Value.vbool b, k => some (Value.vint ((if b then 1 else 0) * k))
  | Value.vnone, _ => none

/-- A data item: a Python `dict` mapping string keys to values, modelled as
an association list with first-match lookup. -/
abbrev Item := List (String × Value)

/-- Dictionary lookup `d[k]`: the first binding of `k`, or `none` when the
key is absent (a raised `KeyError` at use sites). -/
def dictGet {α : Type} : List (String × α) → String → Option α
  | [], _ => none
  | (k, v) :: rest, key => if k = key then some v else dictGet rest key

/-- Python `validate_item`: `"id" in item and "value" in item`. -/
def validate_item (item : Item) : Bool :=
  (dictGet item "id").isSome && (dictGet item "value").isSome

/-- Python `transform_item`: builds `{"id": item["id"],
"value": item["value"] * 2, "processed": True}`.  The dict literal is
evaluated left to right, so a missing `"id"` key raises first, then a
missing `"value"` key, then an unsupported multiplication; any raise makes
the result `none`. -/
def transform_item (item : Item) : Option Item :=
  match dictGet item "id" with
  | none => none
  | some i =>
    match dictGet item "value" with
    | none => none
    | some v =>
      match v.mulInt 2 with
      | none => none
      | some v2 => some [("id", i), ("value", v2), ("processed", Value.vbool true)]

/-- Python `process_data`: the loop appending `transform_item(item)` for
each item with `validate_item(item)`; an exception raised by
`transform_item` propagates (result `none`). -/
def process_data : List Item → Option (List Item)
  | [] => some []
  | item :: rest =>
    if validate_item item then
      match transform_item item, process_data rest with
      | some t, some ts => some (t :: ts)
      | _, _ => none
    else
      process_data rest

/-- The module constant `DEFAULT_BATCH_SIZE = 100`. -/
def DEFAULT_BATCH_SIZE : Int := 100

/-- The module constant `MAX_RETRIES = 3` (declared and never used by the
module). -/
def MAX_RETRIES : Int := 3

/-- The keys of the first-match bindings of an item, for phrasing key
membership. -/
def itemKeys (item : Item) : List String :=
  item.map Prod.fst

theorem dictGet_isSome_eq_contains {α : Type} (l : List (String × α)) (k : String) :
    (dictGet l k).isSome = (l.map Prod.fst).contains k := by
  induction l with
  | nil => rfl
  | cons hd tl ih =>
    obtain ⟨k', v⟩ := hd
    by_cases h : k' = k
    · simp [dictGet, h]
    · simp [dictGet, h, ih, List.contains_cons]
      intro hkk
      exact absurd hkk.symm h

/-- C5: `validate_item` returns true iff both the `id` and `value` keys are
present, whatever values they are bound to; it is a pure boolean test
(total, no state), so it has no side effects and never raises. -/
theorem validate_item_iff_keys_present :
    (∀ item : Item,
      validate_item item = ((itemKeys item).contains "id" && (itemKeys item).contains "value"))
    ∧ (∀ (v w : Value) (tail : Item),
        validate_item (("id", v) :: ("value", w) :: tail) = true) := by
  constructor
  · intro item
    simp [validate_item, itemKeys, dictGet_isSome_eq_contains]
  · intro v w tail
    simp [validate_item, dictGet]

/-- C3: on any item binding `id` to some value `i` and `value` to an
integer `v`, `transform_item` returns exactly the mapping
`{id: i, value: 2*v, processed: true}`, with `i` passed through
unchanged. -/
theorem transform_item_on_numeric (item : Item) (i : Value) (v : Int)
    (hid : dictGet item "id" = some i)
    (hv : dictGet item "value" = some (Value.vint v)) :
    transform_item item
      = some [("id", i), ("value", Value.vint (2 * v)), ("processed", Value.vbool true)] := by
  simp [transform_item, hid, hv, Value.mulInt, Int.mul_comm]

/-- Witness for C3 at the concrete item `{"id": 1, "value": 5}`. -/
theorem transform_item_on_numeric_witness :
    transform_item [("id", Value.vint 1), ("value", Value.vint 5)]
      = some [("id", Value.vint 1), ("value", Value.vint 10),
              ("processed", Value.vbool true)] :=
  transform_item_on_numeric _ _ 5 rfl rfl

theorem process_data_length_le (data out : List Item)
    (h : process_data data = some out) : out.length ≤ data.length := by
  induction data generalizing out with
  | nil =>
    simp [process_data] at h
    simp [← h]
  | cons item rest ih =>
    by_cases hv : validate_item item
    · simp only [process_data, hv, if_pos] at h
      cases ht : transform_item item with
      | none => rw [ht] at h; cases h
      | some t =>
        cases hr : process_data rest with
        | none => rw [ht, hr] at h; cases h
        | some ts =>
          rw [ht, hr] at h
          cases h
          simpa using Nat.succ_le_succ (ih ts hr)
    · simp only [process_data, hv, if_neg, Bool.false_eq_true, not_false_iff] at h
      exact Nat.le_succ_of_le (ih out h)

/-- C2: `process_data` is exactly filter-then-map: it returns the
`transform_item` image, in input order, of precisely the items passing
`validate_item` (invalid items are dropped without any error; a raise can
only come from transforming a valid item, and both sides are then `none`);
whenever it returns, the output is no longer than the input; the empty
input yields the empty output. -/
theorem process_data_filter_map :
    (∀ data : List Item,
      process_data data = (data.filter (fun it => validate_item it)).mapM transform_item)
    ∧ (∀ (data out : List Item), process_data data = some out → out.length ≤ data.length)
    ∧ process_data [] = some [] := by
  refine ⟨?_, process_data_length_le, rfl⟩
  intro data
  induction data with
  | nil => rfl
  | cons item rest ih =>
    by_cases hv : validate_item item
    · simp only [process_data, hv, if_pos, List.filter_cons_of_pos, List.mapM_cons, ← ih]
      cases transform_item item with
      | none => rfl
      | some t =>
        cases process_data rest with
        | none => rfl
        | some ts => rfl
    · simp [process_data, hv, List.filter_cons_of_neg, ih]

/-- Witness for C2 on the concrete input
`[{"id": 1, "value": 5}, {"id": 2}, {"id": 3, "value": 10}]`. -/
theorem process_data_filter_map_witness :
    process_data
        [[("id", Value.vint 1), ("value", Value.vint 5)],
         [("id", Value.vint 2)],
         [("id", Value.vint 3), ("value", Value.vint 10)]]
      = ([[("id", Value.vint 1), ("value", Value.vint 5)],
          [("id", Value.vint 2)],
          [("id", Value.vint 3), ("value", Value.vint 10)]].filter
            (fun it => validate_item it)).mapM transform_item
    ∧ ([[("id", Value.vint 1), ("value", Value.vint 5)]] : List Item).length ≤
        ([[("id", Value.vint 1), ("value", Value.vint 5)],
          [("id", Value.vint 47)]] : List Item).length :=
  ⟨process_data_filter_map.1 _,
   process_data_filter_map.2.1
     [[("id", Value.vint 1), ("value", Value.vint 5)], [("id", Value.vint 47)]]
     [[("id", Value.vint 1), ("value", Value.vint 10), ("processed", Value.vbool true)]]
     (by decide)⟩

/-- Counterexample for C4 as stated: the item `{"value": 5}` has a value
that does support multiplication by an integer, yet `transform_item`
raises on it (a `KeyError` for the missing `"id"` key), so "raises iff the
value does not support multiplication" is false without assuming the item
is valid. -/
theorem transform_item_raises_cex :
    transform_item [("value", Value.vint 5)] = none
    ∧ ((Value.vint 5).mulInt 2).isSome = true := by
  constructor
  · rfl
  · rfl

/-- C4 (amended to items holding both keys, as assumed by the transformer
contract of the spec): for every item binding both `id` and `value`,
`transform_item` raises (returns `none`, the exception propagating to the
caller uncaught) if and only if the bound value does not support
multiplication by an integer. -/
theorem transform_item_raises_iff (item : Item) (i v : Value)
    (hid : dictGet item "id" = some i)
    (hv : dictGet item "value" = some v) :
    transform_item item = none ↔ v.mulInt 2 = none := by
  cases hm : v.mulInt 2 with
  | none => simp [transform_item, hid, hv, hm]
  | some v2 => simp [transform_item, hid, hv, hm]

/-- Witness for C4 at the concrete item `{"id": 1, "value": None}`. -/
theorem transform_item_raises_iff_witness :
    transform_item [("id", Value.vint 1), ("value", Value.vnone)] = none
      ↔ Value.vnone.mulInt 2 = none :=
  transform_item_raises_iff _ _ _ rfl rfl

/-- C7: transforming twice doubles twice: on an item with integer value
`v`, `transform_item` composed with itself yields value `4*v` (not
`2*v`), and `transform_item` is not idempotent. -/
theorem transform_item_not_idempotent :
    (∀ (item : Item) (i : Value) (v : Int),
      dictGet item "id" = some i →
      dictGet item "value" = some (Value.vint v) →
      (transform_item item).bind transform_item
        = some [("id", i), ("value", Value.vint (4 * v)),
                ("processed", Value.vbool true)])
    ∧ (∃ it : Item, (transform_item it).bind transform_item ≠ transform_item it) := by
  constructor
  · intro item i v hid hv
    have h1 : transform_item item
        = some [("id", i), ("value", Value.vint (2 * v)), ("processed", Value.vbool true)] :=
      transform_item_on_numeric item i v hid hv
    rw [h1]
    simp [transform_item, dictGet, Value.mulInt]
    omega
  · exact ⟨[("id", Value.vint 1), ("value", Value.vint 1)], by decide⟩

/-- Witness for C7 at the concrete item `{"id": 1, "value": 5}`: two
applications give `value = 20 = 4 * 5`. -/
theorem transform_item_not_idempotent_witness :
    (transform_item [("id", Value.vint 1), ("value", Value.vint 5)]).bind transform_item
      = some [("id", Value.vint 1), ("value", Value.vint 20),
              ("processed", Value.vbool true)] :=
  transform_item_not_idempotent.1 _ _ 5 rfl rfl

/-- Python `range(start, stop, step)` as a list of indices: `none` models
the `ValueError` raised when `step == 0`; otherwise the arithmetic
progression `start, start + step, ...` strictly before (after, for
negative step) `stop`. -/
def pyRange (start stop step : Int) : Option (List Int) :=
  if step = 0 then none
  else
    let len : Nat :=
      if 0 < step then ((stop - start + step - 1) / step).toNat
      else ((start - stop + (-step) - 1) / (-step)).toNat
    some ((List.range len).map (fun i : Nat => start + step * (i : Int)))

/-- Python slice `l[i:j]` for the non-negative bounds produced by
`process_batch` (the from-the-end meaning of negative indices is never
reached there, so it is not modelled). -/
def pySlice {α : Type} (l : List α) (i j : Int) : List α :=
  (l.take j.toNat).drop i.toNat

/-- The `DataProcessor` object: its two instance attributes.  The
constructor is `DataProcessor.init`, whose argument defaults to
`DEFAULT_BATCH_SIZE` in Python. -/
structure DataProcessor where
  batch_size : Int
  processed_count : Int
deriving DecidableEq, Repr

/-- Constructor `DataProcessor.__init__`: sets `batch_size` and zeroes
`processed_count`. -/
def DataProcessor.init (batch_size : Int) : DataProcessor :=
  { batch_size := batch_size, processed_count := 0 }

/-- The body of the `process_batch` loop, folding over the index list of
`range(0, len(items), batch_size)`: each step slices
`items[i:i+batch_size]`, extends the results with `process_data(batch)`,
then adds the slice length to `processed_count`.  A raise inside
`process_data` propagates before the count update of that step, leaving the
object with the updates of the completed steps only. -/
def processBatchGo (items : List Item) :
    DataProcessor → List Item → List Int → DataProcessor × Option (List Item)
  | p, acc, [] => (p, some acc)
  | p, acc, i :: idxs =>
    let batch := pySlice items i (i + p.batch_size)
    match process_data batch with
    | none => (p, none)
    | some res =>
      processBatchGo items
        { p with processed_count := p.processed_count + (batch.length : Int) }
        (acc ++ res) idxs

/-- Method `DataProcessor.process_batch`: returns the updated object and
the concatenated results, `none` standing for a raised exception (from
`range` on a zero `batch_size`, or from `process_data`). -/
def DataProcessor.process_batch (p : DataProcessor) (items : List Item) :
    DataProcessor × Option (List Item) :=
  match pyRange 0 (items.length : Int) p.batch_size with
  | none => (p, none)
  | some idxs => processBatchGo items p [] idxs

/-- Method `DataProcessor.get_stats`: reads the two attributes into a fresh
dict; the object is returned unchanged (the method assigns nothing). -/
def DataProcessor.get_stats (p : DataProcessor) :
    DataProcessor × List (String × Int) :=
  (p, [("processed_count", p.processed_count), ("batch_size", p.batch_size)])

/-- Running a sequence of `process_batch` calls on one object, keeping the
state each call leaves behind (also after a raise). -/
def runCalls (p : DataProcessor) : List (List Item) → DataProcessor
  | [] => p
  | c :: cs => runCalls (p.process_batch c).1 cs

/-- Every call in the sequence returns normally (no exception). -/
def callsOk (p : DataProcessor) : List (List Item) → Bool
  | [] => true
  | c :: cs => (p.process_batch c).2.isSome && callsOk (p.process_batch c).1 cs

/-- C9: `get_stats` returns the `{processed_count, batch_size}` snapshot of
the current attribute values and leaves the object exactly as it was. -/
theorem get_stats_snapshot_no_mutation :
    ∀ p : DataProcessor,
      (p.get_stats).1 = p
      ∧ dictGet (p.get_stats).2 "processed_count" = some p.processed_count
      ∧ dictGet (p.get_stats).2 "batch_size" = some p.batch_size := by
  intro p
  refine ⟨rfl, rfl, ?_⟩
  simp [DataProcessor.get_stats, dictGet]

theorem ceil_div_covers (N B : Nat) (hB : 1 ≤ B) : N ≤ B * ((N + B - 1) / B) := by
  have h := Nat.div_add_mod (N + B - 1) B
  have h2 : (N + B - 1) % B < B := Nat.mod_lt _ hB
  omega

theorem pyRange_pos (N B : Nat) (hB : 1 ≤ B) :
    pyRange 0 (N : Int) (B : Int)
      = some ((List.range ((N + B - 1) / B)).map (fun i : Nat => (B : Int) * (i : Int))) := by
  have hne : ((B : Int) ≠ 0) := by omega
  have hpos : (0 : Int) < (B : Int) := by omega
  simp only [pyRange, if_neg hne, if_pos hpos]
  have hnum : (N : Int) - 0 + (B : Int) - 1 = ((N + B - 1 : Nat) : Int) := by omega
  rw [hnum, ← Int.ofNat_ediv, Int.toNat_ofNat]
  simp

theorem pySlice_chunk {α : Type} (l : List α) (B k : Nat) :
    pySlice l ((B : Int) * (k : Int)) ((B : Int) * (k : Int) + (B : Int))
      = (l.drop (B * k)).take B := by
  have h1 : ((B : Int) * (k : Int)).toNat = B * k := by omega
  have h2 : ((B : Int) * (k : Int) + (B : Int)).toNat = B * k + B := by omega
  simp only [pySlice, h1, h2, List.drop_take]
  congr 1
  omega

theorem process_data_append (a b : List Item) :
    process_data (a ++ b)
      = match process_data a, process_data b with
        | some x, some y => some (x ++ y)
        | _, _ => none := by
  induction a with
  | nil =>
    simp only [List.nil_append, process_data]
    cases process_data b <;> rfl
  | cons item rest ih =>
    by_cases hv : validate_item item
    · simp only [List.cons_append, process_data, hv, if_pos, List.append_eq]
      rw [ih]
      cases transform_item item <;> cases process_data rest <;> cases process_data b <;> rfl
    · simp only [List.cons_append, process_data, hv, Bool.false_eq_true, if_neg,
        not_false_iff]
      exact ih

theorem processBatchGo_cons (items : List Item) (p : DataProcessor) (acc : List Item)
    (i : Int) (idxs : List Int) :
    processBatchGo items p acc (i :: idxs)
      = match process_data (pySlice items i (i + p.batch_size)) with
        | none => (p, none)
        | some res =>
          processBatchGo items
            { p with processed_count :=
                p.processed_count + ((pySlice items i (i + p.batch_size)).length : Int) }
            (acc ++ res) idxs := rfl

theorem processBatchGo_batch_size (items : List Item) :
    ∀ (idxs : List Int) (p : DataProcessor) (acc : List Item),
      (processBatchGo items p acc idxs).1.batch_size = p.batch_size := by
  intro idxs
  induction idxs with
  | nil => intro p acc; rfl
  | cons i rest ih =>
    intro p acc
    rw [processBatchGo_cons]
    cases h : process_data (pySlice items i (i + p.batch_size)) with
    | none => rfl
    | some res => exact ih _ _

theorem processBatchGo_count_mono (items : List Item) :
    ∀ (idxs : List Int) (p : DataProcessor) (acc : List Item),
      p.processed_count ≤ (processBatchGo items p acc idxs).1.processed_count := by
  intro idxs
  induction idxs with
  | nil => intro p acc; exact le_refl _
  | cons i rest ih =>
    intro p acc
    rw [processBatchGo_cons]
    cases h : process_data (pySlice items i (i + p.batch_size)) with
    | none => exact le_refl _
    | some res =>
      refine le_trans ?_ (ih _ _)
      simp only []
      omega

theorem map_mul_range' (B k len : Nat) :
    (List.range' k (len + 1)).map (fun i : Nat => (B : Int) * (i : Int))
      = ((B * k : Nat) : Int)
          :: (List.range' (k + 1) len).map (fun i : Nat => (B : Int) * (i : Int)) := by
  have hcast : ((B * k : Nat) : Int) = (B : Int) * (k : Int) := by push_cast; ring
  rw [List.range'_succ, List.map_cons, hcast]

theorem drop_chunk_split (items : List Item) (B k : Nat) :
    items.drop (B * k) = (items.drop (B * k)).take B ++ items.drop (B * k + B) := by
  conv_lhs => rw [← List.take_append_drop B (items.drop (B * k))]
  rw [List.drop_drop]

theorem processBatchGo_snd (items : List Item) (B : Nat) :
    ∀ (len k : Nat) (p : DataProcessor) (acc : List Item),
      p.batch_size = (B : Int) →
      items.length ≤ B * k + B * len →
      (processBatchGo items p acc
          ((List.range' k len).map (fun i : Nat => (B : Int) * (i : Int)))).2
        = Option.map (fun r => acc ++ r) (process_data (items.drop (B * k))) := by
  intro len
  induction len with
  | zero =>
    intro k p acc hbs hcov
    have hk : items.length ≤ B * k := by simpa using hcov
    have hd : items.drop (B * k) = [] := List.drop_eq_nil_of_le hk
    rw [hd]
    simp [processBatchGo, process_data]
  | succ len ih =>
    intro k p acc hbs hcov
    rw [map_mul_range', processBatchGo_cons, hbs]
    have hcast : ((B * k : Nat) : Int) = (B : Int) * (k : Int) := by push_cast; ring
    have hslice : pySlice items ((B * k : Nat) : Int) (((B * k : Nat) : Int) + (B : Int))
        = (items.drop (B * k)).take B := by
      rw [hcast]
      exact pySlice_chunk items B k
    rw [hslice]
    conv_rhs => rw [drop_chunk_split items B k, process_data_append]
    cases hpd : process_data ((items.drop (B * k)).take B) with
    | none => simp
    | some res =>
      have hcov' : items.length ≤ B * (k + 1) + B * len := by
        simp only [Nat.mul_succ] at hcov ⊢
        omega
      have hih := ih (k + 1)
        ⟨(B : Int), p.processed_count + (((items.drop (B * k)).take B).length : Int)⟩
        (acc ++ res) rfl hcov'
      simp only [Nat.mul_succ] at hih
      dsimp only
      rw [hih]
      cases process_data (items.drop (B * k + B)) <;> simp

theorem processBatchGo_count (items : List Item) (B : Nat) :
    ∀ (len k : Nat) (p : DataProcessor) (acc : List Item),
      p.batch_size = (B : Int) →
      items.length ≤ B * k + B * len →
      (processBatchGo items p acc
          ((List.range' k len).map (fun i : Nat => (B : Int) * (i : Int)))).2.isSome = true →
      (processBatchGo items p acc
          ((List.range' k len).map (fun i : Nat => (B : Int) * (i : Int)))).1.processed_count
        = p.processed_count + ((items.drop (B * k)).length : Int) := by
  intro len
  induction len with
  | zero =>
    intro k p acc hbs hcov hsome
    have hk : items.length ≤ B * k := by simpa using hcov
    have hd : items.drop (B * k) = [] := List.drop_eq_nil_of_le hk
    rw [hd]
    simp [processBatchGo]
  | succ len ih =>
    intro k p acc hbs hcov hsome
    rw [map_mul_range', processBatchGo_cons, hbs] at hsome ⊢
    have hcast : ((B * k : Nat) : Int) = (B : Int) * (k : Int) := by push_cast; ring
    have hslice : pySlice items ((B * k : Nat) : Int) (((B * k : Nat) : Int) + (B : Int))
        = (items.drop (B * k)).take B := by
      rw [hcast]
      exact pySlice_chunk items B k
    rw [hslice] at hsome ⊢
    have hlensplit : (items.drop (B * k)).length
        = ((items.drop (B * k)).take B).length + (items.drop (B * k + B)).length := by
      conv_lhs => rw [drop_chunk_split items B k]
      rw [List.length_append]
    cases hpd : process_data ((items.drop (B * k)).take B) with
    | none =>
      rw [hpd] at hsome
      simp at hsome
    | some res =>
      rw [hpd] at hsome
      have hcov' : items.length ≤ B * (k + 1) + B * len := by
        simp only [Nat.mul_succ] at hcov ⊢
        omega
      have hih := ih (k + 1)
        ⟨(B : Int), p.processed_count + (((items.drop (B * k)).take B).length : Int)⟩
        (acc ++ res) rfl hcov' (by simpa [Nat.mul_succ] using hsome)
      simp only [Nat.mul_succ] at hih
      dsimp only
      rw [hih, hlensplit]
      push_cast
      ring

theorem process_batch_full (p : DataProcessor) (items : List Item)
    (hB : 1 ≤ p.batch_size) :
    (p.process_batch items).2 = process_data items
    ∧ ((p.process_batch items).2.isSome = true →
        (p.process_batch items).1.processed_count
          = p.processed_count + (items.length : Int)) := by
  have hBB : p.batch_size = ((p.batch_size.toNat : Nat) : Int) :=
    (Int.toNat_of_nonneg (by omega)).symm
  have hB1 : 1 ≤ p.batch_size.toNat := by omega
  have hcov : items.length
      ≤ p.batch_size.toNat * 0
        + p.batch_size.toNat * ((items.length + p.batch_size.toNat - 1) / p.batch_size.toNat) := by
    simpa using ceil_div_covers items.length p.batch_size.toNat hB1
  have hrange : pyRange 0 (items.length : Int) p.batch_size
      = some ((List.range ((items.length + p.batch_size.toNat - 1) / p.batch_size.toNat)).map
          (fun i : Nat => ((p.batch_size.toNat : Nat) : Int) * (i : Int))) := by
    conv_lhs => rw [hBB]
    exact pyRange_pos items.length p.batch_size.toNat hB1
  have hpb : p.process_batch items
      = processBatchGo items p []
          ((List.range' 0 ((items.length + p.batch_size.toNat - 1) / p.batch_size.toNat)).map
            (fun i : Nat => ((p.batch_size.toNat : Nat) : Int) * (i : Int))) := by
    unfold DataProcessor.process_batch
    rw [hrange, List.range_eq_range']
  constructor
  · rw [hpb, processBatchGo_snd items p.batch_size.toNat _ 0 p [] hBB hcov]
    simp only [Nat.mul_zero, List.drop_zero]
    cases process_data items <;> rfl
  · intro hsome
    rw [hpb] at hsome ⊢
    rw [processBatchGo_count items p.batch_size.toNat _ 0 p [] hBB hcov hsome]
    simp

theorem process_batch_keeps_batch_size (p : DataProcessor) (items : List Item) :
    (p.process_batch items).1.batch_size = p.batch_size := by
  unfold DataProcessor.process_batch
  cases h : pyRange 0 (items.length : Int) p.batch_size with
  | none => rfl
  | some idxs => exact processBatchGo_batch_size items idxs p []

theorem process_batch_count_mono (p : DataProcessor) (items : List Item) :
    p.processed_count ≤ (p.process_batch items).1.processed_count := by
  unfold DataProcessor.process_batch
  cases h : pyRange 0 (items.length : Int) p.batch_size with
  | none => exact le_refl _
  | some idxs => exact processBatchGo_count_mono items idxs p []

/-- Counterexample for C1 as stated: with `batch_size = 1`, a single
`process_batch` call on the one-item input `[{"id": 1, "value": None}]`
raises inside `process_data` (the value does not support multiplication)
before the count update for that slice, so afterwards `processed_count` is `0`,
not the input length `1`. -/
theorem processed_count_invariant_cex :
    ((DataProcessor.init 1).process_batch
        [[("id", Value.vint 1), ("value", Value.vnone)]]).1.processed_count
      ≠ (([[("id", Value.vint 1), ("value", Value.vnone)]] : List Item).length : Int) := by
  decide

/-- C1 (amended to positive batch sizes and calls that return normally):
for every `DataProcessor` with `batch_size ≥ 1` and every sequence of
`process_batch` calls none of which raises, `processed_count` afterwards
equals its initial value plus the total number of input items passed
across all the calls, regardless of item validity; in particular a single
normal call on an input of length N adds exactly N; and `processed_count`
is monotonically non-decreasing across every call, raising or not. -/
theorem processed_count_totals :
    (∀ (p : DataProcessor) (calls : List (List Item)),
        1 ≤ p.batch_size → callsOk p calls = true →
        (runCalls p calls).processed_count
          = p.processed_count + (((calls.map List.length).sum : Nat) : Int))
    ∧ (∀ (p : DataProcessor) (items : List Item),
        1 ≤ p.batch_size → (p.process_batch items).2.isSome = true →
        (p.process_batch items).1.processed_count
          = p.processed_count + (items.length : Int))
    ∧ (∀ (p : DataProcessor) (items : List Item),
        p.processed_count ≤ (p.process_batch items).1.processed_count) := by
  refine ⟨?_, fun p items hB hs => (process_batch_full p items hB).2 hs,
    process_batch_count_mono⟩
  intro p calls
  induction calls generalizing p with
  | nil =>
    intro hB hok
    simp [runCalls]
  | cons c cs ih =>
    intro hB hok
    simp only [callsOk, Bool.and_eq_true] at hok
    obtain ⟨h1, h2⟩ := hok
    have hc := (process_batch_full p c hB).2 h1
    have hB' : 1 ≤ (p.process_batch c).1.batch_size := by
      rw [process_batch_keeps_batch_size]
      exact hB
    have hrec := ih (p.process_batch c).1 hB' h2
    simp only [runCalls]
    rw [hrec, hc]
    simp only [List.map_cons, List.sum_cons]
    push_cast
    ring

/-- Witness for C1 (amended): two normal calls with `batch_size = 2`, of
lengths 3 and 1, leave `processed_count = 0 + 4`. -/
theorem processed_count_totals_witness :
    (runCalls (DataProcessor.init 2)
        [[[("id", Value.vint 1), ("value", Value.vint 5)],
          [("id", Value.vint 2)],
          [("id", Value.vint 3), ("value", Value.vint 10)]],
         [[("id", Value.vint 4), ("value", Value.vint 7)]]]).processed_count
      = (DataProcessor.init 2).processed_count
        + ((([[[("id", Value.vint 1), ("value", Value.vint 5)],
               [("id", Value.vint 2)],
               [("id", Value.vint 3), ("value", Value.vint 10)]],
              [[("id", Value.vint 4), ("value", Value.vint 7)]]].map List.length).sum : Nat) : Int) :=
  processed_count_totals.1 _ _ (by decide) (by decide)

/-- C6: with a positive `batch_size`, the slicing loop of `process_batch`
iterates over `range(0, len(items), batch_size)`, a list that exists (no
`ValueError`) and has exactly `ceil(N / batch_size)` entries, so the loop
terminates after that many slices; nothing is claimed for zero or
negative batch sizes. -/
theorem process_batch_iteration_count (p : DataProcessor) (items : List Item)
    (hB : 1 ≤ p.batch_size) :
    ∃ idxs : List Int,
      pyRange 0 (items.length : Int) p.batch_size = some idxs
      ∧ idxs.length = (items.length + p.batch_size.toNat - 1) / p.batch_size.toNat := by
  have hBB : p.batch_size = ((p.batch_size.toNat : Nat) : Int) :=
    (Int.toNat_of_nonneg (by omega)).symm
  have hB1 : 1 ≤ p.batch_size.toNat := by omega
  refine ⟨(List.range ((items.length + p.batch_size.toNat - 1) / p.batch_size.toNat)).map
      (fun i : Nat => ((p.batch_size.toNat : Nat) : Int) * (i : Int)), ?_, ?_⟩
  · conv_lhs => rw [hBB]
    exact pyRange_pos items.length p.batch_size.toNat hB1
  · simp

/-- Witness for C6: three items with `batch_size = 2` make
`ceil(3/2) = 2` loop iterations. -/
theorem process_batch_iteration_count_witness :
    ∃ idxs : List Int,
      pyRange 0
          ((([[("id", Value.vint 1)], [("id", Value.vint 2)],
              [("id", Value.vint 3)]] : List Item).length : Int))
          (DataProcessor.init 2).batch_size
        = some idxs
      ∧ idxs.length
          = (([[("id", Value.vint 1)], [("id", Value.vint 2)],
               [("id", Value.vint 3)]] : List Item).length
              + (DataProcessor.init 2).batch_size.toNat - 1)
            / (DataProcessor.init 2).batch_size.toNat :=
  process_batch_iteration_count (DataProcessor.init 2) _ (by decide)

/-- C10: with a positive `batch_size`, slicing into batches and
concatenating the per-slice results changes nothing but the counter:
`process_batch` returns (or raises) exactly what `process_data` on the
whole input returns (or raises), and `batch_size` itself is left
unchanged. -/
theorem process_batch_refines_process_data (p : DataProcessor) (items : List Item)
    (hB : 1 ≤ p.batch_size) :
    (p.process_batch items).2 = process_data items
    ∧ (p.process_batch items).1.batch_size = p.batch_size :=
  ⟨(process_batch_full p items hB).1, process_batch_keeps_batch_size p items⟩

/-- Witness for C10 on the concrete scenario of the spec (batch size 2, three
items, one invalid). -/
theorem process_batch_refines_process_data_witness :
    ((DataProcessor.init 2).process_batch
        [[("id", Value.vint 1), ("value", Value.vint 5)],
         [("id", Value.vint 2)],
         [("id", Value.vint 3), ("value", Value.vint 10)]]).2
      = process_data
          [[("id", Value.vint 1), ("value", Value.vint 5)],
           [("id", Value.vint 2)],
           [("id", Value.vint 3), ("value", Value.vint 10)]]
    ∧ ((DataProcessor.init 2).process_batch
        [[("id", Value.vint 1), ("value", Value.vint 5)],
         [("id", Value.vint 2)],
         [("id", Value.vint 3), ("value", Value.vint 10)]]).1.batch_size
      = (DataProcessor.init 2).batch_size :=
  process_batch_refines_process_data (DataProcessor.init 2) _ (by decide)

/-- A parsed JSON document, as `json.load` returns it. -/
inductive Json where
  | jnull : Json
  | jbool : Bool → Json
  | jnum : Int → Json
  | jstr : String → Json
  | jarr : List Json → Json
  | jobj : List (String × Json) → Json

/-- The two failure conditions `load_config` can propagate: `open` raising
`FileNotFoundError`, or `json.load` raising `JSONDecodeError`. -/
inductive LoadError where
  | fileNotFound : LoadError
  | parseError : LoadError
deriving DecidableEq, Repr

/-- Python `load_config`: opens the file and returns `json.load(f)`
verbatim, with no schema validation and no retry; a missing path or
malformed content raises, propagated uncaught.  The filesystem is
abstracted as a partial map from paths to contents (`none` = missing
file), and the standard library JSON parser as a function from contents
to a parsed document (`none` = malformed). -/
def load_config (fs : String → Option String) (parseJson : String → Option Json)
    (filepath : String) : Except LoadError Json :=
  match fs filepath with
  | none => Except.error LoadError.fileNotFound
  | some content =>
    match parseJson content with
    | none => Except.error LoadError.parseError
    | some j => Except.ok j

/-- C8: `load_config` on a path holding well-formed JSON returns the
parsed document verbatim (no schema validation); on a missing path it
fails with the file-not-found condition, and on malformed content with
the parse-error condition, each propagated uncaught to the caller in a
single attempt. -/
theorem load_config_spec (fs : String → Option String)
    (parseJson : String → Option Json) (filepath : String) :
    (∀ (content : String) (j : Json),
        fs filepath = some content → parseJson content = some j →
        load_config fs parseJson filepath = Except.ok j)
    ∧ (fs filepath = none →
        load_config fs parseJson filepath = Except.error LoadError.fileNotFound)
    ∧ (∀ content : String,
        fs filepath = some content → parseJson content = none →
        load_config fs parseJson filepath = Except.error LoadError.parseError) := by
  refine ⟨?_, ?_, ?_⟩
  · intro content j hfs hp
    simp [load_config, hfs, hp]
  · intro hfs
    simp [load_config, hfs]
  · intro content hfs hp
    simp [load_config, hfs, hp]

/-- Witness for C8 on a concrete filesystem: `cfg.json` holds the
well-formed document parsed as the mapping with the single pair
`a shadowing 1`, `bad.json` holds malformed content, and `missing.json` is
absent. -/
theorem load_config_spec_witness :
    load_config
        (fun p => if p = "cfg.json" then some "ok" else
          if p = "bad.json" then some "oops" else none)
        (fun s => if s = "ok" then some (Json.jobj [("a", Json.jnum 1)]) else none)
        "cfg.json"
      = Except.ok (Json.jobj [("a", Json.jnum 1)])
    ∧ load_config
        (fun p => if p = "cfg.json" then some "ok" else
          if p = "bad.json" then some "oops" else none)
        (fun s => if s = "ok" then some (Json.jobj [("a", Json.jnum 1)]) else none)
        "missing.json"
      = Except.error LoadError.fileNotFound
    ∧ load_config
        (fun p => if p = "cfg.json" then some "ok" else
          if p = "bad.json" then some "oops" else none)
        (fun s => if s = "ok" then some (Json.jobj [("a", Json.jnum 1)]) else none)
        "bad.json"
      = Except.error LoadError.parseError :=
  ⟨(load_config_spec _ _ "cfg.json").1 "ok" _ rfl rfl,
   (load_config_spec _ _ "missing.json").2.1 rfl,
   (load_config_spec _ _ "bad.json").2.2 "oops" rfl rfl⟩
